import Mathlib

/-!
Verification of the control-surface core (availability backoff, async-apply
brightness controller, hardware backend command/event processing), shallowly
embedded from the Rust sources.

Modelling conventions:
* `u8`/`u64` values are `Nat`; Rust `saturating_add` on `u64` is modelled with
  an explicit cap at `u64Max`; `clamp` is explicit.
* The wall clock (`now_secs()`) is passed as an explicit `Nat` argument.
* Channels and worker threads are modelled by explicit oracle inputs (what a
  `try_recv` would return at that moment, what `is_available()` answers at
  each call site, in call order) and ghost output logs (which worker targets
  were spawned, which displays were pushed).
* `f32` fields (`progress`, tint colors) of `EncoderDisplay` are omitted from
  the embedding: no verified claim depends on floating point.
-/

/-- `u64::MAX`, the saturation bound of `saturating_add` on `u64`. -/
def u64Max : Nat := 18446744073709551615

/-- Rust `Ord::clamp` on integers (`assert!(min <= max)` elided): pin `x`
into `[lo, hi]`. -/
def rustClamp (x lo hi : Int) : Int :=
  if x < lo then lo else if hi < x then hi else x

/-- Rust `Ord::clamp` on `u8`-as-`Nat`. -/
def rustClampNat (x lo hi : Nat) : Nat :=
  if x < lo then lo else if hi < x then hi else x

/-! ## Availability tracker (`src/system/availability.rs`) -/

/-- State of `RetryableAvailability`: an availability flag, a retry deadline
(`0` meaning "no deadline set") and a fixed backoff in seconds. -/
structure RetryableAvailability where
  available : Bool
  retry_after : Nat
  backoff_secs : Nat
  deriving Repr, DecidableEq

namespace RetryableAvailability

/-- `RetryableAvailability::new`. -/
def new (initially_available : Bool) (backoff_secs : Nat) : RetryableAvailability :=
  { available := initially_available, retry_after := 0, backoff_secs := backoff_secs }

/-- `RetryableAvailability::current`. -/
def current (s : RetryableAvailability) : Bool :=
  s.available

/-- `RetryableAvailability::mark_available`: sets the flag, clears the deadline,
and reports whether this was a transition from unavailable. -/
def mark_available (s : RetryableAvailability) : Bool × RetryableAvailability :=
  let was_available := s.available
  (!was_available, { s with available := true, retry_after := 0 })

/-- `RetryableAvailability::mark_unavailable` at wall-clock time `now`: clears
the flag, sets the deadline to `now + backoff` (saturating on `u64`), and
reports whether this was a transition from available. -/
def mark_unavailable (s : RetryableAvailability) (now : Nat) : Bool × RetryableAvailability :=
  let was_available := s.available
  let retry_at := min (now + s.backoff_secs) u64Max
  (was_available, { s with available := false, retry_after := retry_at })

/-- `RetryableAvailability::try_acquire` at wall-clock time `now`. Returns
`(usable, just_recovered)` and the successor state. -/
def try_acquire (s : RetryableAvailability) (now : Nat) :
    (Bool × Bool) × RetryableAvailability :=
  if s.available then
    ((true, false), s)
  else if s.retry_after = 0 then
    ((false, false), s)
  else if s.retry_after ≤ now then
    let (became_available, s1) := s.mark_available
    ((true, became_available), s1)
  else
    ((false, false), s)

/-- Repeated `try_acquire` calls at the wall-clock times listed in `ts`,
collecting the returned pairs and threading the state. -/
def try_acquire_seq (s : RetryableAvailability) (ts : List Nat) :
    List (Bool × Bool) × RetryableAvailability :=
  match ts with
  | [] => ([], s)
  | t :: rest =>
    let (r, s1) := s.try_acquire t
    let (rs, s2) := s1.try_acquire_seq rest
    (r :: rs, s2)

end RetryableAvailability

/-! ## Display model (`src/hardware/backend.rs`) -/

/-- `EncoderId`: exactly four fixed identities. -/
inductive EncoderId
  | one
  | two
  | three
  | four
  deriving Repr, DecidableEq

namespace EncoderId

/-- `EncoderId::from_index`. -/
def from_index (index : Nat) : Option EncoderId :=
  match index with
  | 0 => some .one
  | 1 => some .two
  | 2 => some .three
  | 3 => some .four
  | _ => none

/-- `EncoderId::index`. -/
def index (e : EncoderId) : Nat :=
  match e with
  | .one => 0
  | .two => 1
  | .three => 2
  | .four => 3

/-- `EncoderId::all`. -/
def all : List EncoderId := [.one, .two, .three, .four]

end EncoderId

/-- `EncoderDisplay`: title, primary value string, optional status string.
The `progress`, `progress_color` and `value_color` fields (`f32` / tint data
that the control flow of the verified claims never reads) are omitted from the
embedding. -/
structure EncoderDisplay where
  title : String
  value : String
  status : Option String
  deriving Repr, DecidableEq

/-- `EncoderDisplay::new`. -/
def EncoderDisplay.new (title value : String) : EncoderDisplay :=
  { title := title, value := value, status := none }

/-! ## Brightness controller (`src/controls/brightness.rs`)

The controller owns a brightness backend and a display pipeline. The
embedding passes the backend's behaviour as explicit oracle arguments: one
`PollOutcome` per `try_recv` on the apply channel and one `Bool` per
`is_available()` call, in the order the Rust code performs those calls. Each
operation returns the successor state together with the list of
`EncoderDisplay` values pushed through the display pipeline, in push order.
Worker spawns (`thread::spawn` + `bounded(1)` channel creation in
`enqueue_apply`) are recorded in two ghost fields: `chan_gen` numbers the
channels ever created, and `spawned` logs the targets handed to spawned
workers, in order. -/

deriving instance DecidableEq for Except

/-- What a non-blocking `try_recv` on the apply channel reports. -/
inductive PollOutcome
  | empty
  | received (result : Except String Nat)
  | disconnected
  deriving Repr, DecidableEq

/-- State of `BrightnessController` (backend and display handles excluded;
`apply_rx` holds the id of the channel whose receiver the controller keeps). -/
structure BrightnessState where
  encoder : EncoderId
  step : Nat
  min_level : Nat
  max_level : Nat
  level : Nat
  pending_level : Nat
  pending_dirty : Bool
  apply_inflight : Option Nat
  apply_rx : Option Nat
  night_level : Nat
  previous_level : Nat
  available : Bool
  chan_gen : Nat
  spawned : List Nat
  deriving Repr, DecidableEq

namespace BrightnessState

/-- Right-pad-free rendering of `format!("{:>3}%", n)`: the decimal digits of
`n` right-aligned in a field of width 3, followed by a percent sign. -/
def formatLevel (n : Nat) : String :=
  let digits := toString n
  let padded :=
    if 3 ≤ digits.length then digits
    else String.mk (List.replicate (3 - digits.length) ' ') ++ digits
  padded ++ "%"

/-- `BrightnessController::push_display`: the `EncoderDisplay` pushed for the
current state (progress fraction omitted, see module comment). -/
def push_display (s : BrightnessState) : EncoderDisplay :=
  let display_level := if s.pending_dirty then s.pending_level else s.level
  let status : Option String :=
    if s.pending_dirty then some "pending"
    else if s.apply_inflight.isSome then some "apply"
    else if display_level ≤ s.night_level then some "night"
    else none
  { title := "bright", value := formatLevel display_level, status := status }

/-- `BrightnessController::push_unavailable_display`. -/
def push_unavailable_display : EncoderDisplay :=
  { title := "bright", value := "N/A", status := some "ddc disabled" }

/-- `BrightnessController::poll_apply`. `pr` is what `try_recv` would report
if the controller holds a receiver (ignored otherwise); `avail` is the
`is_available()` answer read when a result was found. In the Rust code
`finished`/`outcome` are always set together, so the embedding merges them
into one `Option` (`none` = not finished). -/
def poll_apply (s : BrightnessState) (pr : PollOutcome) (avail : Bool) :
    BrightnessState × List EncoderDisplay :=
  let outcome : Option (Except String Nat) :=
    match s.apply_rx with
    | none => none
    | some _ =>
      match pr with
      | .empty => none
      | .received r => some r
      | .disconnected => some (.error "brightness worker disconnected")
  match outcome with
  | none => (s, [])
  | some result =>
    let s1 := { s with apply_rx := none, apply_inflight := none }
    let s2 :=
      match result with
      | .ok applied =>
        { s1 with
          level := applied,
          pending_level := applied,
          previous_level :=
            if s1.night_level < applied then applied else s1.previous_level }
      | .error _ => s1
    let s3 := { s2 with available := avail }
    if s3.available then (s3, [push_display s3])
    else (s3, [push_unavailable_display])

/-- `BrightnessController::enqueue_apply`: drop any previously held receiver,
create a fresh channel, spawn one worker that will write `target`, and
optimistically record `target` as the current level. -/
def enqueue_apply (s : BrightnessState) (target : Nat) (avail : Bool) :
    BrightnessState × List EncoderDisplay :=
  let s1 := { s with
    apply_rx := some s.chan_gen,
    chan_gen := s.chan_gen + 1,
    spawned := s.spawned ++ [target],
    apply_inflight := some target,
    pending_dirty := false,
    pending_level := target,
    level := target,
    previous_level :=
      if s.night_level < target then target else s.previous_level,
    available := avail }
  (s1, [push_display s1])

/-- `BrightnessController::preview_level`. Oracle order: `avail_poll` for the
`is_available()` call inside `poll_apply` (if read), `avail_now` for the call
right after it. -/
def preview_level (s : BrightnessState) (lvl : Int) (pr : PollOutcome)
    (avail_poll avail_now : Bool) : BrightnessState × List EncoderDisplay :=
  let (s1, out1) := poll_apply s pr avail_poll
  let s2 := { s1 with available := avail_now }
  if s2.available = false then (s2, out1 ++ [push_unavailable_display])
  else
    let clamped := (rustClamp lvl (Int.ofNat s2.min_level) (Int.ofNat s2.max_level)).toNat
    let s3 := { s2 with
      pending_level := clamped,
      pending_dirty := clamped != s2.level }
    let s4 := if s3.pending_dirty then { s3 with apply_inflight := none } else s3
    (s4, out1 ++ [push_display s4])

/-- `BrightnessController::set_level`. -/
def set_level (s : BrightnessState) (lvl : Int) (pr : PollOutcome)
    (avail_poll avail_now avail_enq : Bool) : BrightnessState × List EncoderDisplay :=
  let (s1, out1) := poll_apply s pr avail_poll
  let s2 := { s1 with available := avail_now }
  if s2.available = false then (s2, out1 ++ [push_unavailable_display])
  else
    let clamped := (rustClamp lvl (Int.ofNat s2.min_level) (Int.ofNat s2.max_level)).toNat
    let (s3, out2) := enqueue_apply s2 clamped avail_enq
    (s3, out1 ++ out2)

/-- `BrightnessController::on_turn` (from the `EncoderController` impl). -/
def on_turn (s : BrightnessState) (delta : Int) (pr1 : PollOutcome)
    (avail_poll1 avail_now : Bool) (pr2 : PollOutcome)
    (avail_poll2 avail_preview : Bool) : BrightnessState × List EncoderDisplay :=
  let (s1, out1) := poll_apply s pr1 avail_poll1
  let s2 := { s1 with available := avail_now }
  if s2.available = false then (s2, out1 ++ [push_unavailable_display])
  else if delta = 0 then (s2, out1)
  else
    let magnitude : Int := Int.ofNat (min (delta.natAbs * s2.step) 255)
    let delta_value := if 0 < delta then magnitude else -magnitude
    let (s3, out2) :=
      preview_level s2 (Int.ofNat s2.pending_level + delta_value) pr2
        avail_poll2 avail_preview
    (s3, out1 ++ out2)

/-- `BrightnessController::on_press` (from the `EncoderController` impl). -/
def on_press (s : BrightnessState) (pr1 : PollOutcome)
    (avail_poll1 avail_now : Bool) (pr2 : PollOutcome)
    (avail_poll2 avail_set avail_enq : Bool) : BrightnessState × List EncoderDisplay :=
  let (s1, out1) := poll_apply s pr1 avail_poll1
  let s2 := { s1 with available := avail_now }
  if s2.available = false then (s2, out1 ++ [push_unavailable_display])
  else if s2.pending_dirty then
    let (s3, out2) :=
      set_level s2 (Int.ofNat s2.pending_level) pr2 avail_poll2 avail_set avail_enq
    (s3, out1 ++ out2)
  else if s2.level ≤ s2.night_level then
    let restore := max s2.previous_level (s2.night_level + 1)
    let (s3, out2) :=
      set_level s2 (Int.ofNat restore) pr2 avail_poll2 avail_set avail_enq
    (s3, out1 ++ out2)
  else
    let s2b := { s2 with previous_level := s2.level }
    let (s3, out2) :=
      set_level s2b (Int.ofNat s2.night_level) pr2 avail_poll2 avail_set avail_enq
    (s3, out1 ++ out2)

/-- `BrightnessController::on_release`: only polls. -/
def on_release (s : BrightnessState) (pr : PollOutcome) (avail : Bool) :
    BrightnessState × List EncoderDisplay :=
  poll_apply s pr avail

/-- `Tickable::on_tick` for the brightness controller: only polls. -/
def on_tick (s : BrightnessState) (pr : PollOutcome) (avail : Bool) :
    BrightnessState × List EncoderDisplay :=
  poll_apply s pr avail

/-- `BrightnessController::refresh_state`. Oracle order: `avail1` for the
first `is_available()`, `get_result` for `get_brightness()`, `avail_err` for
the `is_available()` re-read in the error arm, `avail2` for the final
`is_available()`. -/
def refresh_state (s : BrightnessState) (avail1 : Bool)
    (get_result : Except String Nat) (avail_err avail2 : Bool) :
    BrightnessState × List EncoderDisplay :=
  let s0 := { s with available := avail1 }
  if s0.available = false then (s0, [push_unavailable_display])
  else
    let (current, sA) :=
      match get_result with
      | .ok value => (value, s0)
      | .error _ => (s0.max_level, { s0 with available := avail_err })
    let sB := { sA with
      level := rustClampNat current sA.min_level sA.max_level,
      pending_level := rustClampNat current sA.min_level sA.max_level,
      pending_dirty := false,
      apply_inflight := none,
      apply_rx := none,
      previous_level := rustClampNat current sA.min_level sA.max_level,
      available := avail2 }
    if sB.available = false then (sB, [push_unavailable_display])
    else (sB, [push_display sB])

/-- `BrightnessController::new`: build the initial state and run
`refresh_state` once. `avail_init` answers the constructor's
`backend.is_available()`. -/
def new (encoder : EncoderId) (step min_level max_level night_level : Nat)
    (avail_init : Bool) (avail1 : Bool) (get_result : Except String Nat)
    (avail_err avail2 : Bool) : BrightnessState × List EncoderDisplay :=
  let s : BrightnessState := {
    encoder := encoder,
    step := max step 1,
    min_level := min_level,
    max_level := max max_level (min_level + 1),
    level := min_level,
    pending_level := min_level,
    pending_dirty := false,
    apply_inflight := none,
    apply_rx := none,
    night_level := rustClampNat night_level min_level max_level,
    previous_level := max_level,
    available := avail_init,
    chan_gen := 0,
    spawned := [] }
  refresh_state s avail1 get_result avail_err avail2

end BrightnessState

/-! ## Hardware backend (`src/hardware/backend.rs`)

The backend thread owns fixed-size in-memory state: four per-encoder display
slots and one icon slot per button. Each loop iteration drains the command
channel (modelled as the list of commands pending this iteration), merges the
commands into the slots, and flushes to the device; then it reads one input
report and translates it into events. `flush_strip` / `flush_buttons` calls
are recorded as ghost outputs (`flushed_strip`, and the batch handed to
`flush_buttons`). -/

/-- `ButtonImage`: identity string, a handle to the shared decoded pixels
(modelled as an opaque `Nat` identifier for the `Arc<RgbaImage>` pointer),
and an optional 3-channel tint. -/
structure ButtonImage where
  id : String
  image : Nat
  tint : Option (Nat × Nat × Nat)
  deriving Repr, DecidableEq

/-- `HardwareCommand`. -/
inductive HardwareCommand
  | updateEncoderDisplay (encoder : EncoderId) (display : EncoderDisplay)
  | updateButtonIcon (index : Nat) (icon : Option ButtonImage)
  deriving Repr, DecidableEq

/-- `HardwareEvent`. -/
inductive HardwareEvent
  | encoderTurned (encoder : EncoderId) (delta : Int)
  | encoderPressed (encoder : EncoderId)
  | encoderReleased (encoder : EncoderId)
  | buttonPressed (index : Nat)
  | buttonReleased (index : Nat)
  | touch
  deriving Repr, DecidableEq

/-- Result of one `process_commands` iteration: the merged slots, whether
`render::flush_strip` was called, and the changed-button batch handed to
`render::flush_buttons` (`[]` = not called). -/
structure ProcessResult where
  displays : List (Option EncoderDisplay)
  button_icons : List (Option ButtonImage)
  flushed_strip : Bool
  flushed_buttons : List Nat
  deriving Repr, DecidableEq

/-- One step of the drain loop in `process_commands`: merge a single command
into the slots and the change-tracking accumulators. An `UpdateButtonIcon`
whose index is out of range is logged and dropped (`get_mut` returns `None`). -/
def mergeCommand (displays : List (Option EncoderDisplay))
    (button_icons : List (Option ButtonImage)) (displays_changed : Bool)
    (buttons_changed : List Nat) (command : HardwareCommand) :
    List (Option EncoderDisplay) × List (Option ButtonImage) × Bool × List Nat :=
  match command with
  | .updateEncoderDisplay encoder display =>
    (displays.set encoder.index (some display), button_icons, true, buttons_changed)
  | .updateButtonIcon index icon =>
    if index < button_icons.length then
      (displays, button_icons.set index icon, displays_changed,
       buttons_changed ++ [index])
    else
      (displays, button_icons, displays_changed, buttons_changed)

/-- The `while let Ok(command) = command_rx.try_recv()` drain loop. -/
def drainCommands (displays : List (Option EncoderDisplay))
    (button_icons : List (Option ButtonImage)) (displays_changed : Bool)
    (buttons_changed : List Nat) (commands : List HardwareCommand) :
    List (Option EncoderDisplay) × List (Option ButtonImage) × Bool × List Nat :=
  match commands with
  | [] => (displays, button_icons, displays_changed, buttons_changed)
  | command :: rest =>
    let m := mergeCommand displays button_icons displays_changed buttons_changed command
    drainCommands m.1 m.2.1 m.2.2.1 m.2.2.2 rest

/-- `process_commands`: drain the pending commands, then flush the strip if
any display slot was written and flush the changed buttons as one batch if
any icon slot was written. -/
def process_commands (displays : List (Option EncoderDisplay))
    (button_icons : List (Option ButtonImage))
    (commands : List HardwareCommand) : ProcessResult :=
  let m := drainCommands displays button_icons false [] commands
  { displays := m.1, button_icons := m.2.1,
    flushed_strip := m.2.2.1, flushed_buttons := m.2.2.2 }

/-- `run_headless`: the command loop without a device. Every received command
is matched and discarded; the loop never sends an event and never fails. -/
def run_headless (commands : List HardwareCommand) :
    Except String (List HardwareEvent) :=
  match commands with
  | [] => .ok []
  | command :: rest =>
    match command with
    | .updateEncoderDisplay _ _ => run_headless rest
    | .updateButtonIcon _ _ => run_headless rest

/-- Raw device input reports (`StreamDeckInput`); `other` stands for the
variants the backend logs and ignores. -/
inductive StreamDeckInput
  | noData
  | buttonStateChange (states : List Bool)
  | encoderStateChange (states : List Bool)
  | encoderTwist (deltas : List Int)
  | other
  deriving Repr, DecidableEq

/-- Rust `Vec::resize(n, false)` on a `Vec<bool>`. -/
def resizeBoolList (l : List Bool) (n : Nat) : List Bool :=
  if n ≤ l.length then l.take n else l ++ List.replicate (n - l.length) false

/-- The `ButtonStateChange` arm's loop, at enumeration position `index` with
the remaining report entries `states`; `full_len` is the report's length (the
resize target). The tracked buffer is grown on a report longer than it, an
event is emitted only on a state transition, and the tracked entry is updated.
The emitted event carries `index as u8`, i.e. the position reduced mod 256. -/
def buttonLoop (index full_len : Nat) (states : List Bool) (prev : List Bool) :
    List Bool × List HardwareEvent :=
  match states with
  | [] => (prev, [])
  | s :: rest =>
    let prev1 := if prev.length ≤ index then resizeBoolList prev full_len else prev
    match prev1.get? index with
    | none => buttonLoop (index + 1) full_len rest prev1
    | some p =>
      if p ≠ s then
        let prev2 := prev1.set index s
        let ev := if s then HardwareEvent.buttonPressed (index % 256)
                  else HardwareEvent.buttonReleased (index % 256)
        let (prevF, evs) := buttonLoop (index + 1) full_len rest prev2
        (prevF, ev :: evs)
      else
        buttonLoop (index + 1) full_len rest prev1

/-- The `EncoderStateChange` arm's loop over the (already `take`-limited)
report entries: the tracked entry is updated and an event emitted only on a
state transition. -/
def encoderLoop (index : Nat) (states : List Bool) (prev : List Bool) :
    List Bool × List HardwareEvent :=
  match states with
  | [] => (prev, [])
  | s :: rest =>
    let p := prev.getD index false
    if p ≠ s then
      let prev2 := prev.set index s
      match EncoderId.from_index index with
      | none => encoderLoop (index + 1) rest prev2
      | some enc =>
        let ev := if s then HardwareEvent.encoderPressed enc
                  else HardwareEvent.encoderReleased enc
        let (prevF, evs) := encoderLoop (index + 1) rest prev2
        (prevF, ev :: evs)
    else
      encoderLoop (index + 1) rest prev

/-- The `EncoderTwist` arm's loop over the (already `take`-limited) report
entries: zero deltas are skipped, nonzero deltas are emitted verbatim. -/
def twistGo (index : Nat) (deltas : List Int) : List HardwareEvent :=
  match deltas with
  | [] => []
  | d :: rest =>
    if d = 0 then twistGo (index + 1) rest
    else
      match EncoderId.from_index index with
      | none => twistGo (index + 1) rest
      | some enc => HardwareEvent.encoderTurned enc d :: twistGo (index + 1) rest

/-- `handle_input`: translate one raw report, threading the tracked encoder
and button press state and returning the emitted events in send order. -/
def handle_input (input : StreamDeckInput) (encoder_state button_state : List Bool) :
    (List Bool × List Bool) × List HardwareEvent :=
  match input with
  | .noData => ((encoder_state, button_state), [])
  | .buttonStateChange states =>
    let (b, evs) := buttonLoop 0 states.length states button_state
    ((encoder_state, b), evs)
  | .encoderStateChange states =>
    let (e, evs) := encoderLoop 0 (states.take encoder_state.length) encoder_state
    ((e, button_state), evs)
  | .encoderTwist deltas =>
    ((encoder_state, button_state), twistGo 0 (deltas.take encoder_state.length))
  | .other => ((encoder_state, button_state), [])

/-- Successive `handle_input` calls of the backend loop, one per report, with
all events sent into the event channel in order. -/
def handle_input_seq (inputs : List StreamDeckInput)
    (encoder_state button_state : List Bool) :
    (List Bool × List Bool) × List HardwareEvent :=
  match inputs with
  | [] => ((encoder_state, button_state), [])
  | input :: rest =>
    let ((e1, b1), evs1) := handle_input input encoder_state button_state
    let ((e2, b2), evs2) := handle_input_seq rest e1 b1
    ((e2, b2), evs1 ++ evs2)

/-- Claim-side restatement for C5 (independent of the loop above): pair the
first four report entries with their encoder ordinals and emit exactly one
event per nonzero entry, verbatim, in order. -/
def twistSpec (deltas : List Int) : List HardwareEvent :=
  ((List.range 4).zip deltas).filterMap fun p =>
    if p.2 = 0 then none
    else some (.encoderTurned ((EncoderId.from_index p.1).getD .one) p.2)

/-- Does this event concern button `i`? -/
def evAtButton (i : Nat) (ev : HardwareEvent) : Bool :=
  match ev with
  | .buttonPressed k => k = i
  | .buttonReleased k => k = i
  | _ => false

/-- Does this event concern the encoder press state at ordinal `i`? -/
def evAtEncoder (i : Nat) (ev : HardwareEvent) : Bool :=
  match ev with
  | .encoderPressed enc => enc.index = i
  | .encoderReleased enc => enc.index = i
  | _ => false

/-- The tracked-buffer update at the start of one `buttonLoop` step: grow the
buffer to the report length if the position is beyond it (abbreviates the
`let prev1 := ...` of `buttonLoop`, for the lemmas below). -/
def trackedStep (prev : List Bool) (flen index : Nat) : List Bool :=
  if prev.length ≤ index then resizeBoolList prev flen else prev

/-- The encoder identity at an in-range ordinal (total version of
`EncoderId::from_index` for stating lemmas; agrees with it below 4). -/
def encAt (j : Nat) : EncoderId :=
  (EncoderId.from_index j).getD .one

/-- Claim-side edge events for button `i`: given the tracked value `cur`, emit
one event per transition of the projected report sequence. -/
def buttonTransitions (i : Nat) (cur : Bool) (bs : List Bool) : List HardwareEvent :=
  match bs with
  | [] => []
  | b :: rest =>
    if cur ≠ b then
      (if b then HardwareEvent.buttonPressed i else HardwareEvent.buttonReleased i) ::
        buttonTransitions i b rest
    else
      buttonTransitions i b rest

/-- Claim-side edge events for the encoder at ordinal `i`. -/
def encoderTransitions (enc : EncoderId) (cur : Bool) (bs : List Bool) :
    List HardwareEvent :=
  match bs with
  | [] => []
  | b :: rest =>
    if cur ≠ b then
      (if b then HardwareEvent.encoderPressed enc else HardwareEvent.encoderReleased enc) ::
        encoderTransitions enc b rest
    else
      encoderTransitions enc b rest

/-! # Theorems -/

/-! ### Availability tracker -/

lemma RetryableAvailability.try_acquire_avail (s : RetryableAvailability) (now : Nat)
    (h : s.available = true) : s.try_acquire now = ((true, false), s) := by
  unfold RetryableAvailability.try_acquire
  rw [if_pos h]

lemma RetryableAvailability.try_acquire_stuck (s : RetryableAvailability) (now : Nat)
    (h1 : s.available = false) (h2 : s.retry_after = 0) :
    s.try_acquire now = ((false, false), s) := by
  unfold RetryableAvailability.try_acquire
  rw [if_neg (by simp [h1]), if_pos h2]

lemma RetryableAvailability.try_acquire_before (s : RetryableAvailability) (now : Nat)
    (h1 : s.available = false) (h2 : s.retry_after ≠ 0) (h3 : now < s.retry_after) :
    s.try_acquire now = ((false, false), s) := by
  unfold RetryableAvailability.try_acquire
  rw [if_neg (by simp [h1]), if_neg h2, if_neg (by omega)]

lemma RetryableAvailability.try_acquire_expired (s : RetryableAvailability) (now : Nat)
    (h1 : s.available = false) (h2 : s.retry_after ≠ 0) (h3 : s.retry_after ≤ now) :
    s.try_acquire now = ((true, true), { s with available := true, retry_after := 0 }) := by
  unfold RetryableAvailability.try_acquire
  rw [if_neg (by simp [h1]), if_neg h2, if_pos h3]
  simp [RetryableAvailability.mark_available, h1]

/-- **C1.** Availability backoff protocol. If the tracker is available,
`try_acquire` returns `(true, false)` and changes nothing. After
`mark_unavailable` at time `t0` (with a wall clock that has started, i.e. the
deadline is positive, and no `u64` saturation), every `try_acquire` strictly
before `t0 + backoff` returns `(false, false)` and changes no state; the first
call at or after the deadline returns `(true, true)` and flips the tracker to
the available state with a cleared deadline, from which every call again
returns `(true, false)` until the next `mark_unavailable`. -/
theorem availability_backoff_protocol (s : RetryableAvailability) (t0 : Nat)
    (hpos : 0 < t0 + s.backoff_secs) (hsat : t0 + s.backoff_secs ≤ u64Max) :
    (∀ t, s.available = true → s.try_acquire t = ((true, false), s)) ∧
    (let s1 := (s.mark_unavailable t0).2
     (∀ t, t < t0 + s.backoff_secs → s1.try_acquire t = ((false, false), s1)) ∧
     (∀ t, t0 + s.backoff_secs ≤ t →
       s1.try_acquire t =
         ((true, true),
          { available := true, retry_after := 0, backoff_secs := s.backoff_secs })) ∧
     (∀ t t2, t0 + s.backoff_secs ≤ t →
       ((s1.try_acquire t).2.try_acquire t2) = ((true, false), (s1.try_acquire t).2))) := by
  have hra : min (t0 + s.backoff_secs) u64Max = t0 + s.backoff_secs :=
    Nat.min_eq_left hsat
  have hs1 : (s.mark_unavailable t0).2 =
      { s with available := false, retry_after := t0 + s.backoff_secs } := by
    simp [RetryableAvailability.mark_unavailable, hra]
  refine ⟨?_, ?_, ?_, ?_⟩
  · intro t hav
    exact s.try_acquire_avail t hav
  · intro t ht
    rw [hs1]
    exact RetryableAvailability.try_acquire_before _ t rfl (by simpa using hpos.ne.symm)
      (by simpa using ht)
  · intro t ht
    rw [hs1]
    exact RetryableAvailability.try_acquire_expired _ t rfl (by simpa using hpos.ne.symm)
      (by simpa using ht)
  · intro t t2 ht
    rw [hs1]
    rw [RetryableAvailability.try_acquire_expired _ t rfl (by simpa using hpos.ne.symm)
      (by simpa using ht)]
    exact RetryableAvailability.try_acquire_avail _ t2 rfl

/-- Witness for C1 at a concrete input: tracker with backoff 30 marked
unavailable at time 100. -/
theorem availability_backoff_protocol_witness :
    0 < 100 + (RetryableAvailability.new true 30).backoff_secs ∧
    ((RetryableAvailability.new true 30).mark_unavailable 100).2.try_acquire 129 =
      ((false, false), ((RetryableAvailability.new true 30).mark_unavailable 100).2) ∧
    ((RetryableAvailability.new true 30).mark_unavailable 100).2.try_acquire 130 =
      ((true, true), { available := true, retry_after := 0, backoff_secs := 30 }) := by
  have h := availability_backoff_protocol (RetryableAvailability.new true 30) 100
    (by decide) (by decide)
  refine ⟨by decide, h.2.1 129 (by decide), h.2.2.1 130 (by decide)⟩

/-- **C10.** A tracker constructed with `initially_available = false` has a zero
retry deadline; every `try_acquire` on it, at any time, returns `(false, false)`
and leaves the state unchanged, and any sequence of `try_acquire` calls leaves
it in the same stuck-unavailable state with all results `(false, false)`. -/
theorem availability_new_unavailable_stuck (b : Nat) (ts : List Nat) :
    (RetryableAvailability.new false b).retry_after = 0 ∧
    (∀ t, (RetryableAvailability.new false b).try_acquire t =
      ((false, false), RetryableAvailability.new false b)) ∧
    (RetryableAvailability.new false b).try_acquire_seq ts =
      (ts.map fun _ => (false, false), RetryableAvailability.new false b) := by
  have hstep : ∀ t, (RetryableAvailability.new false b).try_acquire t =
      ((false, false), RetryableAvailability.new false b) := by
    intro t
    exact RetryableAvailability.try_acquire_stuck _ t rfl rfl
  refine ⟨rfl, hstep, ?_⟩
  induction ts with
  | nil => simp [RetryableAvailability.try_acquire_seq]
  | cons t rest ih =>
    simp only [RetryableAvailability.try_acquire_seq, hstep t, ih, List.map_cons]

/-! ### Brightness controller: async apply -/

lemma BrightnessState.poll_apply_empty (s : BrightnessState) (avail : Bool) :
    s.poll_apply .empty avail = (s, []) := by
  unfold BrightnessState.poll_apply
  rcases h : s.apply_rx with _ | c <;> simp [h]

lemma BrightnessState.poll_apply_received_ok (s : BrightnessState) (c a : Nat)
    (avail : Bool) (h : s.apply_rx = some c) :
    (s.poll_apply (.received (.ok a)) avail).1 =
      { s with apply_rx := none, apply_inflight := none, level := a,
               pending_level := a,
               previous_level :=
                 if s.night_level < a then a else s.previous_level,
               available := avail } := by
  unfold BrightnessState.poll_apply
  rw [h]
  cases avail <;> rfl

lemma BrightnessState.poll_apply_received_error (s : BrightnessState) (c : Nat)
    (e : String) (avail : Bool) (h : s.apply_rx = some c) :
    (s.poll_apply (.received (.error e)) avail).1 =
      { s with apply_rx := none, apply_inflight := none, available := avail } := by
  unfold BrightnessState.poll_apply
  rw [h]
  cases avail <;> rfl

/-- **C2 (counterexample).** The claim says a failed poll keeps the last
confirmed value `v0`. In the code, `enqueue_apply` optimistically sets
`level := target` at commit time, and the failure arm of `poll_apply` keeps
that value: committing 50 while the confirmed value was 60 and then polling a
failure result leaves the level at 50, not 60. -/
theorem poll_apply_failure_keeps_target_not_v0 :
    (let s0 := (BrightnessState.new .two 5 10 100 15 true true (.ok 60) true true).1
     let s1 := (s0.on_turn (-2) .empty true true .empty true true).1
     let s2 := (s1.on_press .empty true true .empty true true true).1
     s0.level = 60 ∧ s2.apply_inflight = some 50 ∧
     (s2.poll_apply (.received (.error "ddc write failed")) true).1.level = 50 ∧
     (s2.poll_apply (.received (.error "ddc write failed")) true).1.level ≠ 60) := by
  decide

/-- **C2 (amended).** After a commit of target `t` (which optimistically set
`level := t` and cleared the dirty flag), a poll that finds a result behaves
as follows: on success with applied value `a`, the confirmed level becomes
exactly `a` (not the requested `t`, if they differ) and the dirty flag stays
cleared; on failure, the controller falls back to Idle (receiver and in-flight
marker cleared) keeping the optimistically committed target `t` as its level —
not the pre-commit value — and spawns no retry; a poll that finds no result
yet changes nothing and pushes nothing. -/
theorem async_apply_poll_outcome (s0 : BrightnessState) (t : Nat)
    (avE avP : Bool) (a : Nat) (e : String) :
    (let s1 := (s0.enqueue_apply t avE).1
     (((s1.poll_apply (.received (.ok a)) avP).1.level = a) ∧
      ((s1.poll_apply (.received (.ok a)) avP).1.pending_dirty = false) ∧
      ((s1.poll_apply (.received (.ok a)) avP).1.apply_rx = none) ∧
      ((s1.poll_apply (.received (.ok a)) avP).1.apply_inflight = none)) ∧
     (((s1.poll_apply (.received (.error e)) avP).1.level = t) ∧
      ((s1.poll_apply (.received (.error e)) avP).1.apply_rx = none) ∧
      ((s1.poll_apply (.received (.error e)) avP).1.apply_inflight = none) ∧
      ((s1.poll_apply (.received (.error e)) avP).1.spawned = s1.spawned)) ∧
     (s1.poll_apply .empty avP = (s1, []))) := by
  have hok := BrightnessState.poll_apply_received_ok (s0.enqueue_apply t avE).1
    s0.chan_gen a avP rfl
  have herr := BrightnessState.poll_apply_received_error (s0.enqueue_apply t avE).1
    s0.chan_gen e avP rfl
  refine ⟨⟨?_, ?_, ?_, ?_⟩, ⟨?_, ?_, ?_, ?_⟩, ?_⟩
  · rw [hok]
  · rw [hok]
    rfl
  · rw [hok]
  · rw [hok]
  · rw [herr]
    rfl
  · rw [herr]
  · rw [herr]
  · rw [herr]
  · exact BrightnessState.poll_apply_empty _ _

/-- **C3 (counterexample).** The claim says a commit while a previous worker
is in flight and unpolled does not spawn a second worker. Replaying: commit 50
(worker 1 spawned on channel 0), turn `+2` while the worker is unresolved
(every poll reports empty), press again — the controller spawns a second
worker for 60 on a fresh channel 1, with channel 0 never having delivered. -/
theorem commit_while_inflight_counterexample :
    (let s0 := (BrightnessState.new .two 5 10 100 15 true true (.ok 60) true true).1
     let s1 := (s0.on_turn (-2) .empty true true .empty true true).1
     let s2 := (s1.on_press .empty true true .empty true true true).1
     let s3 := (s2.on_turn 2 .empty true true .empty true true).1
     let s4 := (s3.on_press .empty true true .empty true true true).1
     s2.spawned = [50] ∧ s2.apply_rx = some 0 ∧
     s3.apply_rx = some 0 ∧ s3.pending_dirty = true ∧
     s4.spawned = [50, 60] ∧ s4.spawned.length ≠ 1 ∧ s4.apply_rx = some 1) := by
  decide

/-- **C3 (amended).** A commit (press with a dirty pending value, with the
backend available and the in-flight worker still unresolved, i.e. every poll
reports empty) performed while a previous worker's channel `c` is still held
is not rejected: the controller drops the receiver for channel `c` (whose
result is then never observed), spawns exactly one new worker for the clamped
pending value, and keeps only the fresh channel. -/
theorem commit_while_inflight_spawns_second_worker (s : BrightnessState) (c : Nat)
    (h1 : s.apply_rx = some c) (h2 : s.pending_dirty = true) (h3 : c < s.chan_gen) :
    (let r := (s.on_press .empty true true .empty true true true).1
     r.spawned = s.spawned ++
        [(rustClamp (Int.ofNat s.pending_level) (Int.ofNat s.min_level)
            (Int.ofNat s.max_level)).toNat] ∧
     r.apply_rx = some s.chan_gen ∧
     r.apply_rx ≠ some c) := by
  simp only [BrightnessState.on_press, BrightnessState.poll_apply,
    BrightnessState.set_level, BrightnessState.enqueue_apply, h1, h2]
  simp
  omega

/-- Witness for the amended C3 theorem at the concrete state reached in the
counterexample trace (worker 1 on channel 0 unresolved, pending 60 dirty). -/
theorem commit_while_inflight_spawns_second_worker_witness :
    (let s : BrightnessState := {
      encoder := .two, step := 5, min_level := 10, max_level := 100,
      level := 50, pending_level := 60, pending_dirty := true,
      apply_inflight := none, apply_rx := some 0, night_level := 15,
      previous_level := 50, available := true, chan_gen := 1, spawned := [50] }
     s.apply_rx = some 0 ∧ s.pending_dirty = true ∧ 0 < s.chan_gen ∧
     (let r := (s.on_press .empty true true .empty true true true).1
      r.spawned = s.spawned ++
         [(rustClamp (Int.ofNat s.pending_level) (Int.ofNat s.min_level)
             (Int.ofNat s.max_level)).toNat] ∧
      r.apply_rx = some s.chan_gen ∧
      r.apply_rx ≠ some 0)) :=
  ⟨by decide, by decide, by decide,
   commit_while_inflight_spawns_second_worker _ 0 (by decide) (by decide) (by decide)⟩

/-- **C9.** Brightness scenario: min=10, max=100, step=5, night=15, backend
available with initial brightness 60. A turn of −2 sets pending=50,
dirty=true, and pushes exactly one display with value `" 50%"` and status
`"pending"`; a press commits, spawning one worker with target 50 and pushing
an `"apply"` status; one successful poll reporting applied=50 leaves
confirmed level 50, dirty=false, and pushes a display with the status
cleared. -/
theorem brightness_scenario_turn_press_poll :
    (let r0 := BrightnessState.new .two 5 10 100 15 true true (.ok 60) true true
     let s0 := r0.1
     let r1 := s0.on_turn (-2) .empty true true .empty true true
     let s1 := r1.1
     let r2 := s1.on_press .empty true true .empty true true true
     let s2 := r2.1
     let r3 := s2.on_tick (.received (.ok 50)) true
     let s3 := r3.1
     s0.level = 60 ∧ s0.pending_dirty = false ∧
     r0.2 = [{ title := "bright", value := " 60%", status := none }] ∧
     s1.pending_level = 50 ∧ s1.pending_dirty = true ∧ s1.level = 60 ∧
     r1.2 = [{ title := "bright", value := " 50%", status := some "pending" }] ∧
     s2.spawned = [50] ∧ s2.apply_inflight = some 50 ∧ s2.pending_dirty = false ∧
     r2.2 = [{ title := "bright", value := " 50%", status := some "apply" }] ∧
     s3.level = 50 ∧ s3.pending_dirty = false ∧ s3.apply_inflight = none ∧
     s3.apply_rx = none ∧
     r3.2 = [{ title := "bright", value := " 50%", status := none }]) := by
  decide

/-! ### Hardware backend: headless mode, command merging -/

/-- **C7.** Headless mode: for every sequence of commands, the headless loop
accepts each command without error, discards it, and never produces a
`HardwareEvent`. -/
theorem run_headless_accepts_and_discards_all (commands : List HardwareCommand) :
    run_headless commands = .ok [] := by
  induction commands with
  | nil => rfl
  | cons c rest ih => cases c <;> simpa [run_headless] using ih

lemma mergeCommand_icons_length (displays : List (Option EncoderDisplay))
    (icons : List (Option ButtonImage)) (dc : Bool) (bc : List Nat)
    (c : HardwareCommand) :
    (mergeCommand displays icons dc bc c).2.1.length = icons.length := by
  cases c with
  | updateEncoderDisplay e disp => rfl
  | updateButtonIcon idx icon =>
    by_cases h : idx < icons.length <;> simp [mergeCommand, h]

lemma drainCommands_dc_true (commands : List HardwareCommand) :
    ∀ displays icons bc,
      (drainCommands displays icons true bc commands).2.2.1 = true := by
  induction commands with
  | nil => intro displays icons bc; rfl
  | cons c rest ih =>
    intro displays icons bc
    cases c with
    | updateEncoderDisplay e disp =>
      simpa [drainCommands, mergeCommand] using ih _ _ _
    | updateButtonIcon idx icon =>
      by_cases h : idx < icons.length <;>
        simpa [drainCommands, mergeCommand, h] using ih _ _ _

lemma drainCommands_bc_mono (commands : List HardwareCommand) :
    ∀ displays icons dc bc, ∃ suf,
      (drainCommands displays icons dc bc commands).2.2.2 = bc ++ suf := by
  induction commands with
  | nil => intro displays icons dc bc; exact ⟨[], by simp [drainCommands]⟩
  | cons c rest ih =>
    intro displays icons dc bc
    cases c with
    | updateEncoderDisplay e disp =>
      obtain ⟨suf, hs⟩ := ih (displays.set e.index (some disp)) icons true bc
      exact ⟨suf, by simpa [drainCommands, mergeCommand] using hs⟩
    | updateButtonIcon idx icon =>
      by_cases h : idx < icons.length
      · obtain ⟨suf, hs⟩ := ih displays (icons.set idx icon) dc (bc ++ [idx])
        refine ⟨[idx] ++ suf, ?_⟩
        simpa [drainCommands, mergeCommand, h, List.append_assoc] using hs
      · obtain ⟨suf, hs⟩ := ih displays icons dc bc
        exact ⟨suf, by simpa [drainCommands, mergeCommand, h] using hs⟩

/-- **C4 (counterexample).** The claim says draining a command whose payload
is identical to the current in-memory state triggers no re-render/push. In
the code, change tracking is per command arrival, not by payload comparison:
an `UpdateEncoderDisplay` carrying exactly the stored display still flushes
the strip, and an `UpdateButtonIcon` carrying exactly the stored icon still
enters the flushed-button batch. -/
theorem process_commands_identical_payload_still_flushes :
    (let d : EncoderDisplay := { title := "bright", value := " 60%", status := none }
     let img : ButtonImage := { id := "icon-a", image := 7, tint := none }
     let displays : List (Option EncoderDisplay) := [some d, none, none, none]
     let icons : List (Option ButtonImage) := [some img]
     displays.get? 0 = some (some d) ∧ icons.get? 0 = some (some img) ∧
     (process_commands displays icons
        [.updateEncoderDisplay .one d]).flushed_strip = true ∧
     (process_commands displays icons
        [.updateButtonIcon 0 (some img)]).flushed_buttons = [0]) := by
  decide

/-- **C4 (amended).** A loop iteration that drains zero commands performs no
strip flush and no icon flush and leaves every slot unchanged; but an
iteration that drains an `UpdateEncoderDisplay` command always re-renders and
pushes the strip — even when the payload equals the stored state — and an
in-range `UpdateButtonIcon` always puts its index into the pushed batch:
change detection is per command arrival, not payload comparison. -/
theorem process_commands_rerender_conditions
    (displays : List (Option EncoderDisplay)) (icons : List (Option ButtonImage)) :
    (process_commands displays icons [] =
      { displays := displays, button_icons := icons,
        flushed_strip := false, flushed_buttons := [] }) ∧
    (∀ e disp rest,
      (process_commands displays icons
        (.updateEncoderDisplay e disp :: rest)).flushed_strip = true) ∧
    (∀ idx icon rest, idx < icons.length →
      (process_commands displays icons
        (.updateButtonIcon idx icon :: rest)).flushed_buttons ≠ []) := by
  refine ⟨rfl, ?_, ?_⟩
  · intro e disp rest
    have h := drainCommands_dc_true rest (displays.set e.index (some disp)) icons []
    simpa [process_commands, drainCommands, mergeCommand] using h
  · intro idx icon rest h
    obtain ⟨suf, hs⟩ := drainCommands_bc_mono rest displays (icons.set idx icon) false [idx]
    have : (process_commands displays icons
        (.updateButtonIcon idx icon :: rest)).flushed_buttons = [idx] ++ suf := by
      simpa [process_commands, drainCommands, mergeCommand, h] using hs
    simp [this]

/-- Witness for the amended C4 theorem: concrete slots, a display command on
encoder one and an icon command on button 0. -/
theorem process_commands_rerender_conditions_witness :
    (let displays : List (Option EncoderDisplay) := [none, none, none, none]
     let icons : List (Option ButtonImage) := [none, none]
     process_commands displays icons [] =
       { displays := displays, button_icons := icons,
         flushed_strip := false, flushed_buttons := [] } ∧
     (process_commands displays icons
       [.updateEncoderDisplay .one (EncoderDisplay.new "t" "v")]).flushed_strip = true ∧
     (0 < icons.length ∧
      (process_commands displays icons
        [.updateButtonIcon 0 none]).flushed_buttons ≠ [])) :=
  ⟨(process_commands_rerender_conditions [none, none, none, none] [none, none]).1,
   (process_commands_rerender_conditions [none, none, none, none] [none, none]).2.1
     .one (EncoderDisplay.new "t" "v") [],
   by decide,
   (process_commands_rerender_conditions [none, none, none, none] [none, none]).2.2
     0 none [] (by decide)⟩

lemma drainCommands_skip_oob (idx : Nat) (icon : Option ButtonImage)
    (post : List HardwareCommand) (pre : List HardwareCommand) :
    ∀ displays icons dc bc, icons.length ≤ idx →
      drainCommands displays icons dc bc
          (pre ++ .updateButtonIcon idx icon :: post) =
        drainCommands displays icons dc bc (pre ++ post) := by
  induction pre with
  | nil =>
    intro displays icons dc bc h
    simp [drainCommands, mergeCommand, Nat.not_lt.mpr h]
  | cons c pre ih =>
    intro displays icons dc bc h
    have hlen := mergeCommand_icons_length displays icons dc bc c
    simp only [List.cons_append, drainCommands]
    exact ih _ _ _ _ (by rw [hlen]; exact h)

/-- **C8.** Out-of-range safety of command merging: an `UpdateButtonIcon`
command whose index is at or beyond the number of button slots leaves every
display and icon slot unchanged and triggers no flush (as the sole drained
command), and anywhere in a command stream it contributes nothing — the
stream behaves exactly as if the command were absent; encoder display
commands always merge in range because every `EncoderId` ordinal is below
the four display slots. -/
theorem out_of_range_button_icon_dropped (displays : List (Option EncoderDisplay))
    (icons : List (Option ButtonImage)) (idx : Nat) (icon : Option ButtonImage)
    (h : icons.length ≤ idx) :
    (process_commands displays icons [.updateButtonIcon idx icon] =
      { displays := displays, button_icons := icons,
        flushed_strip := false, flushed_buttons := [] }) ∧
    (∀ pre post,
      process_commands displays icons (pre ++ .updateButtonIcon idx icon :: post) =
        process_commands displays icons (pre ++ post)) ∧
    (∀ e : EncoderId, e.index < 4) := by
  refine ⟨?_, ?_, ?_⟩
  · simp [process_commands, drainCommands, mergeCommand, Nat.not_lt.mpr h]
  · intro pre post
    simp [process_commands, drainCommands_skip_oob idx icon post pre displays icons false [] h]
  · intro e
    cases e <;> decide

/-- Witness for C8: a two-slot icon array and an `UpdateButtonIcon` at
index 5, alone and inside a longer stream. -/
theorem out_of_range_button_icon_dropped_witness :
    (let icons : List (Option ButtonImage) := [none, none]
     let displays : List (Option EncoderDisplay) := [none, none, none, none]
     icons.length ≤ 5 ∧
     process_commands displays icons [.updateButtonIcon 5 none] =
       { displays := displays, button_icons := icons,
         flushed_strip := false, flushed_buttons := [] } ∧
     process_commands displays icons
         [.updateButtonIcon 1 none, .updateButtonIcon 5 none] =
       process_commands displays icons [.updateButtonIcon 1 none]) :=
  ⟨by decide,
   (out_of_range_button_icon_dropped [none, none, none, none] [none, none] 5 none
     (by decide)).1,
   by
     have h := (out_of_range_button_icon_dropped [none, none, none, none] [none, none]
       5 none (by decide)).2.1 [.updateButtonIcon 1 none] []
     simpa using h⟩

/-! ### Hardware backend: input translation -/

lemma getD_set_self (l : List Bool) (j : Nat) (b : Bool) (h : j < l.length) :
    (l.set j b).getD j false = b := by
  rw [List.getD_eq_getElem _ _ (by simpa using h)]
  simp

lemma getD_set_ne (l : List Bool) (j i : Nat) (b : Bool) (h : i ≠ j) :
    (l.set j b).getD i false = l.getD i false := by
  rcases Nat.lt_or_ge i l.length with hi | hi
  · rw [List.getD_eq_getElem _ _ (by simpa using hi),
      List.getD_eq_getElem _ _ hi]
    simp [List.getElem_set, h.symm]
  · rw [List.getD_eq_default _ _ (by simpa using hi), List.getD_eq_default _ _ hi]

lemma getD_replicate_false (k i : Nat) :
    (List.replicate k false).getD i false = false := by
  rcases Nat.lt_or_ge i k with h | h
  · rw [List.getD_eq_getElem _ _ (by simpa using h)]
    simp
  · rw [List.getD_eq_default _ _ (by simpa using h)]

lemma resize_getD (l : List Bool) (n i : Nat) (hgrow : l.length < n) :
    (resizeBoolList l n).getD i false = l.getD i false := by
  unfold resizeBoolList
  rw [if_neg (by omega)]
  rcases Nat.lt_or_ge i l.length with hi | hi
  · rw [List.getD_append _ _ _ _ hi]
  · rw [List.getD_append_right _ _ _ _ hi, List.getD_eq_default _ _ hi,
      getD_replicate_false]

lemma resize_length (l : List Bool) (n : Nat) (hgrow : l.length < n) :
    (resizeBoolList l n).length = n := by
  unfold resizeBoolList
  rw [if_neg (by omega)]
  simp
  omega

lemma trackedStep_getD (prev : List Bool) (flen index i : Nat) (h : index < flen) :
    (trackedStep prev flen index).getD i false = prev.getD i false := by
  unfold trackedStep
  split
  · exact resize_getD _ _ _ (by omega)
  · rfl

lemma trackedStep_get? (prev : List Bool) (flen index : Nat) (h : index < flen) :
    (trackedStep prev flen index).get? index = some (prev.getD index false) := by
  have hlen : index < (trackedStep prev flen index).length := by
    unfold trackedStep
    split
    · rw [resize_length _ _ (by omega)]; exact h
    · omega
  rw [List.get?_eq_getElem?, List.getElem?_eq_getElem hlen]
  have := trackedStep_getD prev flen index index h
  rw [List.getD_eq_getElem _ _ hlen] at this
  rw [this]

lemma trackedStep_length (prev : List Bool) (flen index : Nat) (h : index < flen) :
    index < (trackedStep prev flen index).length := by
  unfold trackedStep
  split
  · rw [resize_length _ _ (by omega)]; exact h
  · omega

lemma buttonLoop_cons (j flen : Nat) (s : Bool) (rest : List Bool)
    (prev : List Bool) (hj : j < flen) :
    buttonLoop j flen (s :: rest) prev =
      (if prev.getD j false ≠ s then
        let r := buttonLoop (j + 1) flen rest ((trackedStep prev flen j).set j s)
        (r.1, (if s then HardwareEvent.buttonPressed (j % 256)
               else HardwareEvent.buttonReleased (j % 256)) :: r.2)
      else
        buttonLoop (j + 1) flen rest (trackedStep prev flen j)) := by
  show (match (trackedStep prev flen j).get? j with
    | none => buttonLoop (j + 1) flen rest (trackedStep prev flen j)
    | some p =>
      if p ≠ s then
        (⟨(buttonLoop (j + 1) flen rest ((trackedStep prev flen j).set j s)).1,
          (if s then HardwareEvent.buttonPressed (j % 256)
           else HardwareEvent.buttonReleased (j % 256)) ::
            (buttonLoop (j + 1) flen rest ((trackedStep prev flen j).set j s)).2⟩ :
          List Bool × List HardwareEvent)
      else
        buttonLoop (j + 1) flen rest (trackedStep prev flen j)) = _
  rw [show (trackedStep prev flen j).get? j = some (prev.getD j false) from
    trackedStep_get? prev flen j hj]

lemma evAtButton_mk (i j : Nat) (s : Bool) :
    evAtButton i (if s then HardwareEvent.buttonPressed j
                  else HardwareEvent.buttonReleased j) = decide (j = i) := by
  cases s <;> rfl

lemma buttonLoop_at (i : Nat) (states : List Bool) :
    ∀ (j : Nat) (prev : List Bool), j + states.length ≤ 256 →
      ((buttonLoop j (j + states.length) states prev).2.filter (evAtButton i) =
        if j ≤ i ∧ i < j + states.length then
          (if prev.getD i false ≠ states.getD (i - j) false then
            [if states.getD (i - j) false then HardwareEvent.buttonPressed i
             else HardwareEvent.buttonReleased i]
          else [])
        else []) ∧
      ((buttonLoop j (j + states.length) states prev).1.getD i false =
        if j ≤ i ∧ i < j + states.length then states.getD (i - j) false
        else prev.getD i false) := by
  induction states with
  | nil =>
    intro j prev hb
    constructor
    · rw [if_neg (by simp)]
      rfl
    · rw [if_neg (by simp)]
      rfl
  | cons s rest ih =>
    intro j prev hb
    have hj : j < j + (s :: rest).length := by simp
    have hfl : j + (s :: rest).length = (j + 1) + rest.length := by
      simp
      omega
    have hb2 : (j + 1) + rest.length ≤ 256 := by
      rw [hfl] at hb
      exact hb
    have hj256 : j % 256 = j := Nat.mod_eq_of_lt (by omega)
    rw [hfl] at hj ⊢
    rw [buttonLoop_cons j _ s rest prev hj]
    simp only [hj256]
    have hlen : j < (trackedStep prev ((j + 1) + rest.length) j).length :=
      trackedStep_length prev _ j hj
    have hT : ∀ m, (trackedStep prev ((j + 1) + rest.length) j).getD m false
        = prev.getD m false := fun m => trackedStep_getD prev _ j m hj
    by_cases hne : prev.getD j false = s
    · -- no transition at position j: no event, tracked unchanged there
      rw [if_neg (show ¬(prev.getD j false ≠ s) from by simp only [ne_eq, not_not]; exact hne)]
      obtain ⟨ihf, iht⟩ := ih (j + 1) (trackedStep prev ((j + 1) + rest.length) j) hb2
      refine ⟨?_, ?_⟩
      · rw [ihf]
        simp only [hT]
        by_cases hij : i = j
        · subst hij
          conv_lhs => rw [if_neg (show ¬(i + 1 ≤ i ∧ i < (i + 1) + rest.length) from by omega)]
          conv_rhs => rw [if_pos (show i ≤ i ∧ i < (i + 1) + rest.length from by omega)]
          have h0 : (s :: rest).getD (i - i) false = s := by simp
          conv_rhs => rw [h0, if_neg (show ¬(prev.getD i false ≠ s) from by simp only [ne_eq, not_not]; exact hne)]
        · by_cases hin : j ≤ i ∧ i < (j + 1) + rest.length
          · conv_lhs => rw [if_pos (show j + 1 ≤ i ∧ i < (j + 1) + rest.length from by omega)]
            conv_rhs => rw [if_pos hin, show i - j = (i - (j + 1)) + 1 from by omega]
            rfl
          · conv_lhs => rw [if_neg (show ¬(j + 1 ≤ i ∧ i < (j + 1) + rest.length) from by omega)]
            conv_rhs => rw [if_neg hin]
      · rw [iht]
        simp only [hT]
        by_cases hij : i = j
        · subst hij
          conv_lhs => rw [if_neg (show ¬(i + 1 ≤ i ∧ i < (i + 1) + rest.length) from by omega)]
          conv_rhs => rw [if_pos (show i ≤ i ∧ i < (i + 1) + rest.length from by omega)]
          have h0 : (s :: rest).getD (i - i) false = s := by simp
          rw [h0]
          exact hne
        · by_cases hin : j ≤ i ∧ i < (j + 1) + rest.length
          · conv_lhs => rw [if_pos (show j + 1 ≤ i ∧ i < (j + 1) + rest.length from by omega)]
            conv_rhs => rw [if_pos hin, show i - j = (i - (j + 1)) + 1 from by omega]
            rfl
          · conv_lhs => rw [if_neg (show ¬(j + 1 ≤ i ∧ i < (j + 1) + rest.length) from by omega)]
            conv_rhs => rw [if_neg hin]
    · -- transition at position j: event emitted, tracked entry set to s
      rw [if_pos (show prev.getD j false ≠ s from hne)]
      obtain ⟨ihf, iht⟩ :=
        ih (j + 1) ((trackedStep prev ((j + 1) + rest.length) j).set j s) hb2
      have hSj : ((trackedStep prev ((j + 1) + rest.length) j).set j s).getD j false = s :=
        getD_set_self _ _ _ hlen
      have hSne : ∀ m, m ≠ j →
          ((trackedStep prev ((j + 1) + rest.length) j).set j s).getD m false
            = prev.getD m false := by
        intro m hm
        rw [getD_set_ne _ _ _ _ hm]
        exact hT m
      refine ⟨?_, ?_⟩
      · simp only [List.filter_cons, evAtButton_mk]
        by_cases hij : i = j
        · subst hij
          have hrec : List.filter (evAtButton i)
              (buttonLoop (i + 1) ((i + 1) + rest.length) rest
                ((trackedStep prev ((i + 1) + rest.length) i).set i s)).2 = [] := by
            rw [ihf, if_neg (by omega)]
          rw [hrec]
          conv_lhs => rw [if_pos (show decide (i = i) = true from by simp)]
          conv_rhs => rw [if_pos (show i ≤ i ∧ i < (i + 1) + rest.length from by omega)]
          have h0 : (s :: rest).getD (i - i) false = s := by simp
          conv_rhs => rw [h0, if_pos hne]
        · conv_lhs => rw [if_neg (show ¬(decide (j = i) = true) from by
            simp
            omega)]
          rw [ihf]
          simp only [hSne i (by omega)]
          by_cases hin : j ≤ i ∧ i < (j + 1) + rest.length
          · conv_lhs => rw [if_pos (show j + 1 ≤ i ∧ i < (j + 1) + rest.length from by omega)]
            conv_rhs => rw [if_pos hin, show i - j = (i - (j + 1)) + 1 from by omega]
            rfl
          · conv_lhs => rw [if_neg (show ¬(j + 1 ≤ i ∧ i < (j + 1) + rest.length) from by omega)]
            conv_rhs => rw [if_neg hin]
      · rw [iht]
        by_cases hij : i = j
        · subst hij
          conv_lhs => rw [if_neg (show ¬(i + 1 ≤ i ∧ i < (i + 1) + rest.length) from by omega)]
          conv_rhs => rw [if_pos (show i ≤ i ∧ i < (i + 1) + rest.length from by omega)]
          have h0 : (s :: rest).getD (i - i) false = s := by simp
          rw [h0]
          exact hSj
        · simp only [hSne i (by omega)]
          by_cases hin : j ≤ i ∧ i < (j + 1) + rest.length
          · conv_lhs => rw [if_pos (show j + 1 ≤ i ∧ i < (j + 1) + rest.length from by omega)]
            conv_rhs => rw [if_pos hin, show i - j = (i - (j + 1)) + 1 from by omega]
            rfl
          · conv_lhs => rw [if_neg (show ¬(j + 1 ≤ i ∧ i < (j + 1) + rest.length) from by omega)]
            conv_rhs => rw [if_neg hin]

lemma getD_take (l : List Bool) (n i : Nat) (h : i < n) :
    (l.take n).getD i false = l.getD i false := by
  rcases Nat.lt_or_ge i l.length with hi | hi
  · rw [List.getD_eq_getElem _ _ (by simp [Nat.lt_min]; omega),
      List.getD_eq_getElem _ _ hi]
    simp [List.getElem_take]
  · rw [List.getD_eq_default _ _ (by simp; omega), List.getD_eq_default _ _ hi]

lemma from_index_encAt (j : Nat) (hj : j < 4) :
    EncoderId.from_index j = some (encAt j) := by
  interval_cases j <;> rfl

lemma encAt_index (j : Nat) (hj : j < 4) : (encAt j).index = j := by
  interval_cases j <;> rfl

lemma evAtEncoder_mk (j i : Nat) (s : Bool) (hj : j < 4) :
    evAtEncoder i (if s then HardwareEvent.encoderPressed (encAt j)
                   else HardwareEvent.encoderReleased (encAt j)) = decide (j = i) := by
  cases s <;> simp [evAtEncoder, encAt_index j hj]

lemma encoderLoop_cons (j : Nat) (s : Bool) (rest : List Bool)
    (prev : List Bool) (hj : j < 4) :
    encoderLoop j (s :: rest) prev =
      (if prev.getD j false ≠ s then
        (⟨(encoderLoop (j + 1) rest (prev.set j s)).1,
          (if s then HardwareEvent.encoderPressed (encAt j)
           else HardwareEvent.encoderReleased (encAt j)) ::
            (encoderLoop (j + 1) rest (prev.set j s)).2⟩ :
          List Bool × List HardwareEvent)
      else
        encoderLoop (j + 1) rest prev) := by
  show (if prev.getD j false ≠ s then
      match EncoderId.from_index j with
      | none => encoderLoop (j + 1) rest (prev.set j s)
      | some enc =>
        (⟨(encoderLoop (j + 1) rest (prev.set j s)).1,
          (if s then HardwareEvent.encoderPressed enc
           else HardwareEvent.encoderReleased enc) ::
            (encoderLoop (j + 1) rest (prev.set j s)).2⟩ :
          List Bool × List HardwareEvent)
    else
      encoderLoop (j + 1) rest prev) = _
  rw [from_index_encAt j hj]

lemma encoderLoop_at (i : Nat) (hi : i < 4) (states : List Bool) :
    ∀ (j : Nat) (prev : List Bool), j + states.length ≤ 4 → prev.length = 4 →
      ((encoderLoop j states prev).2.filter (evAtEncoder i) =
        if j ≤ i ∧ i < j + states.length then
          (if prev.getD i false ≠ states.getD (i - j) false then
            [if states.getD (i - j) false then HardwareEvent.encoderPressed (encAt i)
             else HardwareEvent.encoderReleased (encAt i)]
          else [])
        else []) ∧
      ((encoderLoop j states prev).1.getD i false =
        if j ≤ i ∧ i < j + states.length then states.getD (i - j) false
        else prev.getD i false) ∧
      (encoderLoop j states prev).1.length = 4 := by
  induction states with
  | nil =>
    intro j prev hsum hprev
    refine ⟨?_, ?_, hprev⟩
    · rw [if_neg (by simp)]
      rfl
    · rw [if_neg (by simp)]
      rfl
  | cons s rest ih =>
    intro j prev hsum hprev
    have hj4 : j < 4 := by
      simp at hsum
      omega
    have hsum2 : (j + 1) + rest.length ≤ 4 := by
      simp at hsum
      omega
    have hji : j < prev.length := by omega
    rw [encoderLoop_cons j s rest prev hj4]
    by_cases hne : prev.getD j false = s
    · rw [if_neg (show ¬(prev.getD j false ≠ s) from by
        simp only [ne_eq, not_not]; exact hne)]
      obtain ⟨ihf, iht, ihl⟩ := ih (j + 1) prev hsum2 hprev
      refine ⟨?_, ?_, ihl⟩
      · rw [ihf]
        by_cases hij : i = j
        · subst hij
          conv_lhs => rw [if_neg (show ¬(i + 1 ≤ i ∧ i < (i + 1) + rest.length) from by omega)]
          conv_rhs => rw [if_pos (show i ≤ i ∧ i < i + (s :: rest).length from by simp)]
          have h0 : (s :: rest).getD (i - i) false = s := by simp
          conv_rhs => rw [h0, if_neg (show ¬(prev.getD i false ≠ s) from by
            simp only [ne_eq, not_not]; exact hne)]
        · by_cases hin : j ≤ i ∧ i < j + (s :: rest).length
          · conv_lhs => rw [if_pos (show j + 1 ≤ i ∧ i < (j + 1) + rest.length from by
              simp at hin
              omega)]
            conv_rhs => rw [if_pos hin, show i - j = (i - (j + 1)) + 1 from by omega]
            rfl
          · conv_lhs => rw [if_neg (show ¬(j + 1 ≤ i ∧ i < (j + 1) + rest.length) from by
              simp at hin
              omega)]
            conv_rhs => rw [if_neg hin]
      · rw [iht]
        by_cases hij : i = j
        · subst hij
          conv_lhs => rw [if_neg (show ¬(i + 1 ≤ i ∧ i < (i + 1) + rest.length) from by omega)]
          conv_rhs => rw [if_pos (show i ≤ i ∧ i < i + (s :: rest).length from by simp)]
          have h0 : (s :: rest).getD (i - i) false = s := by simp
          rw [h0]
          exact hne
        · by_cases hin : j ≤ i ∧ i < j + (s :: rest).length
          · conv_lhs => rw [if_pos (show j + 1 ≤ i ∧ i < (j + 1) + rest.length from by
              simp at hin
              omega)]
            conv_rhs => rw [if_pos hin, show i - j = (i - (j + 1)) + 1 from by omega]
            rfl
          · conv_lhs => rw [if_neg (show ¬(j + 1 ≤ i ∧ i < (j + 1) + rest.length) from by
              simp at hin
              omega)]
            conv_rhs => rw [if_neg hin]
    · rw [if_pos (show prev.getD j false ≠ s from hne)]
      have hsetlen : (prev.set j s).length = 4 := by
        simp [hprev]
      obtain ⟨ihf, iht, ihl⟩ := ih (j + 1) (prev.set j s) hsum2 hsetlen
      have hSj : (prev.set j s).getD j false = s := getD_set_self _ _ _ hji
      have hSne : ∀ m, m ≠ j → (prev.set j s).getD m false = prev.getD m false :=
        fun m hm => getD_set_ne _ _ _ _ hm
      refine ⟨?_, ?_, ihl⟩
      · simp only [List.filter_cons, evAtEncoder_mk j i s hj4]
        by_cases hij : i = j
        · subst hij
          have hrec : List.filter (evAtEncoder i)
              (encoderLoop (i + 1) rest (prev.set i s)).2 = [] := by
            rw [ihf, if_neg (by omega)]
          rw [hrec]
          conv_lhs => rw [if_pos (show decide (i = i) = true from by simp)]
          conv_rhs => rw [if_pos (show i ≤ i ∧ i < i + (s :: rest).length from by simp)]
          have h0 : (s :: rest).getD (i - i) false = s := by simp
          conv_rhs => rw [h0, if_pos hne]
        · conv_lhs => rw [if_neg (show ¬(decide (j = i) = true) from by
            simp
            omega)]
          rw [ihf]
          simp only [hSne i (by omega)]
          by_cases hin : j ≤ i ∧ i < j + (s :: rest).length
          · conv_lhs => rw [if_pos (show j + 1 ≤ i ∧ i < (j + 1) + rest.length from by
              simp at hin
              omega)]
            conv_rhs => rw [if_pos hin, show i - j = (i - (j + 1)) + 1 from by omega]
            rfl
          · conv_lhs => rw [if_neg (show ¬(j + 1 ≤ i ∧ i < (j + 1) + rest.length) from by
              simp at hin
              omega)]
            conv_rhs => rw [if_neg hin]
      · rw [iht]
        by_cases hij : i = j
        · subst hij
          conv_lhs => rw [if_neg (show ¬(i + 1 ≤ i ∧ i < (i + 1) + rest.length) from by omega)]
          conv_rhs => rw [if_pos (show i ≤ i ∧ i < i + (s :: rest).length from by simp)]
          have h0 : (s :: rest).getD (i - i) false = s := by simp
          rw [h0]
          exact hSj
        · simp only [hSne i (by omega)]
          by_cases hin : j ≤ i ∧ i < j + (s :: rest).length
          · conv_lhs => rw [if_pos (show j + 1 ≤ i ∧ i < (j + 1) + rest.length from by
              simp at hin
              omega)]
            conv_rhs => rw [if_pos hin, show i - j = (i - (j + 1)) + 1 from by omega]
            rfl
          · conv_lhs => rw [if_neg (show ¬(j + 1 ≤ i ∧ i < (j + 1) + rest.length) from by
              simp at hin
              omega)]
            conv_rhs => rw [if_neg hin]

lemma button_seq_at (i : Nat) (reports : List (List Bool)) :
    ∀ (es bs : List Bool), (∀ r ∈ reports, i < r.length) →
      (∀ r ∈ reports, r.length ≤ 256) →
      ((handle_input_seq (reports.map .buttonStateChange) es bs).2.filter (evAtButton i) =
        buttonTransitions i (bs.getD i false) (reports.map fun r => r.getD i false)) := by
  induction reports with
  | nil => intro es bs h h256; rfl
  | cons r rest ih =>
    intro es bs hcov hcov256
    have hir : i < r.length := hcov r (by simp)
    have hr256 : r.length ≤ 256 := hcov256 r (by simp)
    have hstep : handle_input (.buttonStateChange r) es bs =
        ((es, (buttonLoop 0 r.length r bs).1), (buttonLoop 0 r.length r bs).2) := rfl
    show List.filter (evAtButton i)
        ((handle_input (.buttonStateChange r) es bs).2 ++
          (handle_input_seq (rest.map .buttonStateChange)
            (handle_input (.buttonStateChange r) es bs).1.1
            (handle_input (.buttonStateChange r) es bs).1.2).2) = _
    rw [hstep, List.filter_append]
    obtain ⟨hbf, hbt⟩ := buttonLoop_at i r 0 bs (by omega)
    simp only [Nat.zero_add, Nat.sub_zero] at hbf hbt
    rw [show List.filter (evAtButton i) (buttonLoop 0 r.length r bs).2 =
        (if bs.getD i false ≠ r.getD i false then
          [if r.getD i false then HardwareEvent.buttonPressed i
           else HardwareEvent.buttonReleased i]
        else []) from by rw [hbf, if_pos ⟨by omega, hir⟩]]
    rw [ih _ _ (fun r2 h2 => hcov r2 (by simp [h2]))
      (fun r2 h2 => hcov256 r2 (by simp [h2]))]
    rw [show (buttonLoop 0 r.length r bs).1.getD i false = r.getD i false from by
      rw [hbt, if_pos ⟨by omega, hir⟩]]
    show _ = buttonTransitions i (bs.getD i false)
      (r.getD i false :: rest.map fun r2 => r2.getD i false)
    by_cases htr : bs.getD i false = r.getD i false
    · rw [if_neg (by simp only [ne_eq, not_not]; exact htr)]
      show buttonTransitions i (r.getD i false) _ = _
      rw [show buttonTransitions i (bs.getD i false)
          (r.getD i false :: rest.map fun r2 => r2.getD i false) =
        buttonTransitions i (r.getD i false) (rest.map fun r2 => r2.getD i false) from by
          show (if bs.getD i false ≠ r.getD i false then _ :: _ else _) = _
          rw [if_neg (by simp only [ne_eq, not_not]; exact htr)]]
    · rw [if_pos (show bs.getD i false ≠ r.getD i false from htr)]
      show _ :: _ = _
      rw [show buttonTransitions i (bs.getD i false)
          (r.getD i false :: rest.map fun r2 => r2.getD i false) =
        (if r.getD i false then HardwareEvent.buttonPressed i
         else HardwareEvent.buttonReleased i) ::
          buttonTransitions i (r.getD i false) (rest.map fun r2 => r2.getD i false) from by
          show (if bs.getD i false ≠ r.getD i false then _ :: _ else _) = _
          rw [if_pos (show bs.getD i false ≠ r.getD i false from htr)]]
      rfl

lemma encoder_seq_at (i : Nat) (hi : i < 4) (reports : List (List Bool)) :
    ∀ (es bs : List Bool), es.length = 4 → (∀ r ∈ reports, i < r.length) →
      ((handle_input_seq (reports.map .encoderStateChange) es bs).2.filter (evAtEncoder i) =
        encoderTransitions (encAt i) (es.getD i false) (reports.map fun r => r.getD i false)) := by
  induction reports with
  | nil => intro es bs hlen h; rfl
  | cons r rest ih =>
    intro es bs hlen hcov
    have hir : i < r.length := hcov r (by simp)
    have hstep : handle_input (.encoderStateChange r) es bs =
        (((encoderLoop 0 (r.take es.length) es).1, bs),
          (encoderLoop 0 (r.take es.length) es).2) := rfl
    show List.filter (evAtEncoder i)
        ((handle_input (.encoderStateChange r) es bs).2 ++
          (handle_input_seq (rest.map .encoderStateChange)
            (handle_input (.encoderStateChange r) es bs).1.1
            (handle_input (.encoderStateChange r) es bs).1.2).2) = _
    rw [hstep, List.filter_append, hlen]
    have htk : (r.take 4).length ≤ 4 := by
      simp
    have hitk : i < (r.take 4).length := by
      simp
      omega
    obtain ⟨hef, het, hel⟩ := encoderLoop_at i hi (r.take 4) 0 es (by omega) hlen
    simp only [Nat.zero_add, Nat.sub_zero] at hef het
    rw [show List.filter (evAtEncoder i) (encoderLoop 0 (r.take 4) es).2 =
        (if es.getD i false ≠ r.getD i false then
          [if r.getD i false then HardwareEvent.encoderPressed (encAt i)
           else HardwareEvent.encoderReleased (encAt i)]
        else []) from by
      rw [hef, if_pos ⟨by omega, hitk⟩]
      simp only [getD_take r 4 i hi]]
    rw [ih _ _ hel (fun r2 h2 => hcov r2 (by simp [h2]))]
    rw [show (encoderLoop 0 (r.take 4) es).1.getD i false = r.getD i false from by
      rw [het, if_pos ⟨by omega, hitk⟩, getD_take r 4 i hi]]
    show _ = encoderTransitions (encAt i) (es.getD i false)
      (r.getD i false :: rest.map fun r2 => r2.getD i false)
    by_cases htr : es.getD i false = r.getD i false
    · rw [if_neg (by simp only [ne_eq, not_not]; exact htr)]
      show encoderTransitions (encAt i) (r.getD i false) _ = _
      rw [show encoderTransitions (encAt i) (es.getD i false)
          (r.getD i false :: rest.map fun r2 => r2.getD i false) =
        encoderTransitions (encAt i) (r.getD i false)
          (rest.map fun r2 => r2.getD i false) from by
          show (if es.getD i false ≠ r.getD i false then _ :: _ else _) = _
          rw [if_neg (by simp only [ne_eq, not_not]; exact htr)]]
    · rw [if_pos (show es.getD i false ≠ r.getD i false from htr)]
      show _ :: _ = _
      rw [show encoderTransitions (encAt i) (es.getD i false)
          (r.getD i false :: rest.map fun r2 => r2.getD i false) =
        (if r.getD i false then HardwareEvent.encoderPressed (encAt i)
         else HardwareEvent.encoderReleased (encAt i)) ::
          encoderTransitions (encAt i) (r.getD i false)
            (rest.map fun r2 => r2.getD i false) from by
          show (if es.getD i false ≠ r.getD i false then _ :: _ else _) = _
          rw [if_pos (show es.getD i false ≠ r.getD i false from htr)]]
      rfl

lemma buttonTransitions_all_false (i q : Nat) :
    buttonTransitions i false (List.replicate q false) = [] := by
  induction q with
  | zero => rfl
  | succ q ih => simpa [List.replicate_succ, buttonTransitions] using ih

lemma buttonTransitions_true_block (i : Nat) (q : Nat) (hq : 1 ≤ q) :
    ∀ k, buttonTransitions i true
        (List.replicate k true ++ List.replicate q false) =
      [HardwareEvent.buttonReleased i] := by
  intro k
  induction k with
  | zero =>
    obtain ⟨q2, rfl⟩ : ∃ q2, q = q2 + 1 := ⟨q - 1, by omega⟩
    simp [List.replicate_succ, buttonTransitions, buttonTransitions_all_false]
  | succ k ih =>
    simpa [List.replicate_succ, buttonTransitions] using ih

lemma buttonTransitions_pulse (i p q : Nat) (hp : 1 ≤ p) (hq : 1 ≤ q) :
    buttonTransitions i false
        (List.replicate p true ++ List.replicate q false) =
      [HardwareEvent.buttonPressed i, HardwareEvent.buttonReleased i] := by
  obtain ⟨p2, rfl⟩ : ∃ p2, p = p2 + 1 := ⟨p - 1, by omega⟩
  simp only [List.replicate_succ, List.cons_append, buttonTransitions]
  simpa using buttonTransitions_true_block i q hq p2

lemma encoderTransitions_all_false (enc : EncoderId) (q : Nat) :
    encoderTransitions enc false (List.replicate q false) = [] := by
  induction q with
  | zero => rfl
  | succ q ih => simpa [List.replicate_succ, encoderTransitions] using ih

lemma encoderTransitions_true_block (enc : EncoderId) (q : Nat) (hq : 1 ≤ q) :
    ∀ k, encoderTransitions enc true
        (List.replicate k true ++ List.replicate q false) =
      [HardwareEvent.encoderReleased enc] := by
  intro k
  induction k with
  | zero =>
    obtain ⟨q2, rfl⟩ : ∃ q2, q = q2 + 1 := ⟨q - 1, by omega⟩
    simp [List.replicate_succ, encoderTransitions, encoderTransitions_all_false]
  | succ k ih =>
    simpa [List.replicate_succ, encoderTransitions] using ih

lemma encoderTransitions_pulse (enc : EncoderId) (p q : Nat) (hp : 1 ≤ p) (hq : 1 ≤ q) :
    encoderTransitions enc false
        (List.replicate p true ++ List.replicate q false) =
      [HardwareEvent.encoderPressed enc, HardwareEvent.encoderReleased enc] := by
  obtain ⟨p2, rfl⟩ : ∃ p2, p = p2 + 1 := ⟨p - 1, by omega⟩
  simp only [List.replicate_succ, List.cons_append, encoderTransitions]
  simpa using encoderTransitions_true_block enc q hq p2

/-- **C6 (amended).** Edge-triggered debouncing within the `u8` index space.
For any sequence of button reports that all cover index `i` and each have at
most 256 entries (so every enumeration position fits the `index as u8` the
event carries; the device reports far fewer), the events the backend emits
for `i` are exactly the transitions of the projected bit sequence (so an
event carrying `i` is emitted only when the tracked previous state at `i`
differs from the reported state); in particular a press-then-release pulse
(`p ≥ 1` "pressed" reports, then `q ≥ 1` "released" reports, starting
released) yields exactly one `ButtonPressed i` followed by exactly one
`ButtonReleased i`, with nothing emitted for the repeated unchanged reports.
The same holds unconditionally for the encoder press state at an ordinal
`k < 4` with the four-slot tracked array. -/
theorem edge_triggered_debounce
    (i : Nat) (es bs : List Bool) (reports : List (List Bool)) (p q : Nat)
    (hp : 1 ≤ p) (hq : 1 ≤ q)
    (h0 : bs.getD i false = false)
    (hcov : ∀ r ∈ reports, i < r.length)
    (hcov256 : ∀ r ∈ reports, r.length ≤ 256)
    (hproj : reports.map (fun r => r.getD i false) =
      List.replicate p true ++ List.replicate q false)
    (k : Nat) (hk : k < 4) (es2 bs2 : List Bool) (hlen2 : es2.length = 4)
    (ereports : List (List Bool)) (p2 q2 : Nat) (hp2 : 1 ≤ p2) (hq2 : 1 ≤ q2)
    (h0e : es2.getD k false = false)
    (hcove : ∀ r ∈ ereports, k < r.length)
    (hproje : ereports.map (fun r => r.getD k false) =
      List.replicate p2 true ++ List.replicate q2 false) :
    ((handle_input_seq (reports.map .buttonStateChange) es bs).2.filter (evAtButton i) =
      [HardwareEvent.buttonPressed i, HardwareEvent.buttonReleased i]) ∧
    ((handle_input_seq (ereports.map .encoderStateChange) es2 bs2).2.filter
        (evAtEncoder k) =
      [HardwareEvent.encoderPressed (encAt k), HardwareEvent.encoderReleased (encAt k)]) := by
  constructor
  · rw [button_seq_at i reports es bs hcov hcov256, h0, hproj]
    exact buttonTransitions_pulse i p q hp hq
  · rw [encoder_seq_at k hk ereports es2 bs2 hlen2 hcove, h0e, hproje]
    exact encoderTransitions_pulse (encAt k) p2 q2 hp2 hq2

set_option maxRecDepth 4096 in
/-- **C6 (counterexample).** The claim, unrestricted over report lengths, is
false: the emitted event carries `index as u8`, so a report longer than 256
entries aliases positions onto low button indices. Concretely, a
press-then-release pair at position 256 (and no transition anywhere else)
emits no event for index 256 at all — it emits `ButtonPressed 0` and
`ButtonReleased 0` instead, events for an index whose tracked state never
differed from any report. -/
theorem button_index_wrap_counterexample :
    (let r1 : List Bool := List.replicate 256 false ++ [true]
     let r2 : List Bool := List.replicate 257 false
     let evs := (handle_input_seq ([r1, r2].map .buttonStateChange) [] []).2
     r1.getD 256 false = true ∧ r2.getD 256 false = false ∧
     r1.getD 0 false = false ∧ r2.getD 0 false = false ∧
     ([] : List Bool).getD 0 false = false ∧
     evs.filter (evAtButton 256) = [] ∧
     evs.filter (evAtButton 0) =
       [HardwareEvent.buttonPressed 0, HardwareEvent.buttonReleased 0]) := by
  decide

/-- Witness for C6: two tracked buttons with a pulse on button 0 over three
reports (each far below 256 entries), and a pulse on encoder ordinal 1 over
three four-entry reports. -/
theorem edge_triggered_debounce_witness :
    (1 ≤ 2 ∧ 1 ≤ 1 ∧
     ([false, false] : List Bool).getD 0 false = false ∧
     (∀ r ∈ [[true, true], [true, false], [false, false]], 0 < List.length r) ∧
     (∀ r ∈ [[true, true], [true, false], [false, false]], List.length r ≤ 256) ∧
     List.map (fun r => r.getD 0 false) [[true, true], [true, false], [false, false]] =
       List.replicate 2 true ++ List.replicate 1 false ∧
     (1 : Nat) < 4 ∧ ([false, false, false, false] : List Bool).length = 4 ∧
     ([false, false, false, false] : List Bool).getD 1 false = false ∧
     (∀ r ∈ [[false, true, false, false], [false, true, false, false],
        [false, false, false, false]], 1 < List.length r) ∧
     List.map (fun r => r.getD 1 false)
       [[false, true, false, false], [false, true, false, false],
        [false, false, false, false]] =
       List.replicate 2 true ++ List.replicate 1 false) ∧
    ((handle_input_seq
        ([[true, true], [true, false], [false, false]].map .buttonStateChange)
        [false, false, false, false] [false, false]).2.filter (evAtButton 0) =
      [HardwareEvent.buttonPressed 0, HardwareEvent.buttonReleased 0]) ∧
    ((handle_input_seq
        ([[false, true, false, false], [false, true, false, false],
          [false, false, false, false]].map .encoderStateChange)
        [false, false, false, false] []).2.filter (evAtEncoder 1) =
      [HardwareEvent.encoderPressed (encAt 1), HardwareEvent.encoderReleased (encAt 1)]) :=
  ⟨⟨by decide, by decide, by decide, by decide, by decide, by decide, by decide,
    by decide, by decide, by decide, by decide⟩,
   edge_triggered_debounce 0 [false, false, false, false] [false, false]
     [[true, true], [true, false], [false, false]] 2 1
     (by decide) (by decide) (by decide) (by decide) (by decide) (by decide)
     1 (by decide) [false, false, false, false] [] (by decide)
     [[false, true, false, false], [false, true, false, false],
      [false, false, false, false]] 2 1
     (by decide) (by decide) (by decide) (by decide) (by decide)⟩

lemma twistGo_take_eq_spec (deltas : List Int) :
    twistGo 0 (deltas.take 4) = twistSpec deltas := by
  have hr : List.range 4 = [0, 1, 2, 3] := rfl
  rcases deltas with _ | ⟨d0, _ | ⟨d1, _ | ⟨d2, _ | ⟨d3, rest⟩⟩⟩⟩ <;>
    simp only [List.take, twistGo, twistSpec, hr, List.zip, List.zipWith,
      List.filterMap] <;>
    split_ifs <;>
    simp_all [EncoderId.from_index, twistGo, encAt]

/-- **C5.** Encoder rotation events are emitted verbatim: one report
translates to exactly one `EncoderTurned` event per nonzero delta entry at an
ordinal in `0..3` (sign and magnitude preserved, in entry order, zero deltas
and entries beyond the fourth emitting nothing), with the tracked state
untouched; and a sequence of rotation reports emits exactly the concatenation
of the per-report events — no coalescing across reports. -/
theorem encoder_twist_verbatim (deltas : List Int) (reports : List (List Int))
    (es bs : List Bool) (hlen : es.length = 4) :
    (handle_input (.encoderTwist deltas) es bs = ((es, bs), twistSpec deltas)) ∧
    (handle_input_seq (reports.map .encoderTwist) es bs =
      ((es, bs), (reports.map twistSpec).flatten)) := by
  have hone : ∀ ds : List Int,
      handle_input (.encoderTwist ds) es bs = ((es, bs), twistSpec ds) := by
    intro ds
    show ((es, bs), twistGo 0 (ds.take es.length)) = ((es, bs), twistSpec ds)
    rw [hlen, twistGo_take_eq_spec]
  refine ⟨hone deltas, ?_⟩
  induction reports with
  | nil => rfl
  | cons r rest ih =>
    show (let x := handle_input (.encoderTwist r) es bs
          let y := handle_input_seq (rest.map .encoderTwist) x.1.1 x.1.2
          ((y.1.1, y.1.2), x.2 ++ y.2)) = _
    simp only [hone r]
    simp only [ih]
    simp [List.flatten]

/-- Witness for C5: a five-entry report (the fifth entry is beyond the four
encoders) with zero and nonzero deltas, and a two-report sequence. -/
theorem encoder_twist_verbatim_witness :
    ([false, false, false, false] : List Bool).length = 4 ∧
    (handle_input (.encoderTwist [2, 0, -3, 1, 7]) [false, false, false, false] [] =
      (([false, false, false, false], []),
       [HardwareEvent.encoderTurned .one 2, HardwareEvent.encoderTurned .three (-3),
        HardwareEvent.encoderTurned .four 1])) ∧
    (handle_input_seq ([[1], [-1]].map .encoderTwist) [false, false, false, false] [] =
      (([false, false, false, false], []),
       [HardwareEvent.encoderTurned .one 1, HardwareEvent.encoderTurned .one (-1)])) :=
  ⟨by decide,
   ((encoder_twist_verbatim [2, 0, -3, 1, 7] [] [false, false, false, false] []
      (by decide)).1).trans (by decide),
   ((encoder_twist_verbatim [0] [[1], [-1]] [false, false, false, false] []
      (by decide)).2).trans (by decide)⟩
